import Mathlib

set_option maxRecDepth 16384

/-!
Shallow embedding of `src/BusDuctDatabase.py` (CMH116 BusDuct lookup tool):
the data-cleaning and database-building pipeline.

A raw spreadsheet cell is modelled as `Option String`: `none` is a missing
value (pandas `NaN`/`NA`, caught by `pd.isna`), `some s` is a present value
whose Python string form `str(x)` is `s`.  Date parsing
(`pd.to_datetime(..., errors="coerce")`, a permissive external parser whose
exact behaviour the program does not depend on) is a parameter
`parseDate : RawVal → Option Nat` of the pipeline, with dates abstracted as
naturals.
-/

/-- A raw cell value: `none` models a pandas missing value (`pd.isna` true),
`some s` a present value with string form `s`. -/
abbrev RawVal := Option String

/-- Model of Python `str.strip()`: drop whitespace from both ends. -/
def pyStrip (s : String) : String :=
  String.mk (((s.data.dropWhile Char.isWhitespace).reverse.dropWhile
    Char.isWhitespace).reverse)

/-- Embeds `is_blank` (BusDuctDatabase.py lines 11-14): true when the value is
missing or its stripped string form is empty. -/
def is_blank (x : RawVal) : Bool :=
  match x with
  | none => true
  | some s => pyStrip s == ""

/-- First maximal run of digit characters in a character list; models
`re.search(r"(\d+)", s)` returning group 1. -/
def firstDigitRun : List Char → Option (List Char)
  | [] => none
  | c :: cs =>
    if c.isDigit then some (c :: cs.takeWhile Char.isDigit)
    else firstDigitRun cs

/-- Model of Python `str.zfill(2)` on a digit run: left-pad with zeros to
width 2 (longer strings are returned unchanged). -/
def zfill2 (ds : List Char) : List Char :=
  if 2 ≤ ds.length then ds else List.replicate (2 - ds.length) '0' ++ ds

/-- Embeds `normalize_romp` (lines 16-21): `None` on missing value, else the
first digit run of the stripped string form, zero-padded to width 2; `None`
when no digit occurs. -/
def normalize_romp (val : RawVal) : Option String :=
  match val with
  | none => none
  | some v =>
    match firstDigitRun (pyStrip v).data with
    | some run => some (String.mk (zfill2 run))
    | none => none

/-- Numeric value of a digit run (most significant first). -/
def digitsToNat (ds : List Char) : Nat :=
  ds.foldl (fun acc c => acc * 10 + (c.toNat - Char.toNat '0')) 0

/-- Result of `pd.to_numeric(s, errors="coerce")` as the `int(...)` call at
line 36 distinguishes it: an unparseable value coerced to NaN, a value
parsed to plus or minus infinity (on which `int(...)` raises
OverflowError), or a finite value carried as its truncation toward zero. -/
inductive PyNum where
  | nan : PyNum
  | inf (neg : Bool) : PyNum
  | fin (trunc : Int) : PyNum
deriving DecidableEq, Repr

/-- ASCII lowercasing, for the case-insensitive `inf` / `infinity` / `nan`
literals Python float parsing accepts. -/
def asciiLower (c : Char) : Char :=
  if 'A' ≤ c && c ≤ 'Z' then Char.ofNat (c.toNat + 32) else c

/-- The IEEE double overflow threshold: a decimal magnitude of at least
`2 ^ 1024 - 2 ^ 970` rounds to infinity under round-to-nearest-even. -/
def doubleOvfl : Nat := 2 ^ 1024 - 2 ^ 970

/-- Model of `pd.to_numeric(s, errors="coerce")` (line 33) followed by the
`int(...)` truncation toward zero (line 36), on the grammar of Python
float strings: an optional sign, then digits with an optional fraction and
an optional scientific exponent, or an `inf` / `infinity` / `nan` literal.
Magnitudes at or above the IEEE double overflow threshold parse to
infinity.  Finite values are carried exactly (the 53-bit rounding of a
finite double is not modelled; it is exact on integers below `2 ^ 53`,
which covers SAP identifiers). -/
def pdToNumericClass (s : String) : PyNum :=
  let signed : Bool × List Char :=
    match s.data with
    | '-' :: rest => (true, rest)
    | '+' :: rest => (false, rest)
    | cs => (false, cs)
  let neg := signed.1
  let cs := signed.2
  let low := cs.map asciiLower
  if low == ['i', 'n', 'f'] || low == ['i', 'n', 'f', 'i', 'n', 'i', 't', 'y'] then
    PyNum.inf neg
  else if low == ['n', 'a', 'n'] then PyNum.nan
  else
    let intDigits := cs.takeWhile Char.isDigit
    let rest1 := cs.drop intDigits.length
    let frac : List Char × List Char :=
      match rest1 with
      | '.' :: r => (r.takeWhile Char.isDigit, r.drop (r.takeWhile Char.isDigit).length)
      | r => ([], r)
    let fracDigits := frac.1
    let expPart : Bool × Int × List Char :=
      match frac.2 with
      | 'e' :: r | 'E' :: r =>
        let esigned : Bool × List Char :=
          match r with
          | '-' :: rr => (true, rr)
          | '+' :: rr => (false, rr)
          | rr => (false, rr)
        let eds := esigned.2.takeWhile Char.isDigit
        if eds.isEmpty then (false, 0, frac.2)
        else (true,
          (if esigned.1 then -(digitsToNat eds : Int) else (digitsToNat eds : Int)),
          esigned.2.drop eds.length)
      | r => (true, 0, r)
    if (!intDigits.isEmpty || !fracDigits.isEmpty) && expPart.1 &&
        expPart.2.2.isEmpty then
      let n := digitsToNat (intDigits ++ fracDigits)
      let k : Int := expPart.2.1 - fracDigits.length
      let ovfl : Bool :=
        if 0 ≤ k then decide (doubleOvfl ≤ n * 10 ^ k.toNat)
        else decide (doubleOvfl * 10 ^ (-k).toNat ≤ n)
      if ovfl then PyNum.inf neg
      else
        let m := if 0 ≤ k then n * 10 ^ k.toNat else n / 10 ^ (-k).toNat
        PyNum.fin (if neg then -(m : Int) else (m : Int))
    else PyNum.nan

/-- The value `normalize_sap_to_int` returns when `int(...)` does not
raise: the numeric parse truncated toward zero, or `none` on parse
failure.  On an infinite parse the source raises OverflowError instead of
returning; that path is modelled by `sapRaises` and
`clean_one_file_checked` below. -/
def pdToNumericTrunc (s : String) : Option Int :=
  match pdToNumericClass s with
  | PyNum.fin n => some n
  | _ => none

/-- Does the whole string match `\d+\.0` (one or more digits then literally
`.0`)? Models `re.fullmatch(r"\d+\.0", s)`. -/
def fullmatchDigitsDot0 (s : String) : Bool :=
  let ds := s.data.takeWhile Char.isDigit
  !ds.isEmpty && s.data.drop ds.length == ['.', '0']

/-- Embeds `normalize_sap_to_int` (lines 23-36): `None` on missing value;
else strip the string form, drop a trailing `.0` when the whole string is
digits followed by `.0`, then numerically parse, truncating to an integer;
`None` when the parse fails. -/
def normalize_sap_to_int (val : RawVal) : Option Int :=
  match val with
  | none => none
  | some v =>
    let s := pyStrip v
    let s := if fullmatchDigitsDot0 s then String.mk (s.data.dropLast.dropLast) else s
    pdToNumericTrunc s

/-- Does the source raise an uncaught exception while normalizing this SAP
value?  True when the numeric parse yields infinity, so `int(...)` at line
36 raises OverflowError, or when the truncated integer falls outside the
Int64 range of the `astype("Int64")` cast at line 53. -/
def sapRaises (val : RawVal) : Bool :=
  match val with
  | none => false
  | some v =>
    let s := pyStrip v
    let s := if fullmatchDigitsDot0 s then String.mk (s.data.dropLast.dropLast) else s
    match pdToNumericClass s with
    | PyNum.inf _ => true
    | PyNum.fin n => decide (n < -(2 ^ 63 : Int)) || decide ((2 ^ 63 : Int) ≤ n)
    | PyNum.nan => false

/-- One raw spreadsheet row restricted to the six required columns (other
columns are dropped by `df[required]` and never read). -/
structure RawRow where
  sap : RawVal
  romp : RawVal
  catalog : RawVal
  shipped_qty : RawVal
  ship_date : RawVal
  carrier : RawVal
deriving DecidableEq, Repr

/-- One raw source table: the column names pandas read from the sheet, and
the rows. -/
structure RawTable where
  cols : List String
  rows : List RawRow
deriving DecidableEq, Repr

/-- One normalized row: SAP truncated to an integer (`Int64` nullable),
ROMP a zero-padded digit string, Ship Date a parsed date (abstract),
Catalog / Shipped Qty / Carrier passed through. -/
structure NRow where
  sap : Option Int
  romp : Option String
  catalog : RawVal
  shipped_qty : RawVal
  ship_date : Option Nat
  carrier : RawVal
deriving DecidableEq, Repr

/-- A cleaned dataframe: its column list and its rows. -/
structure Table where
  cols : List String
  rows : List NRow
deriving DecidableEq, Repr

deriving instance DecidableEq for Except

/-- The `ValueError` raised on missing columns (line 44), carrying the
source name and the missing column names. -/
structure SchemaError where
  source : String
  missing : List String
deriving DecidableEq, Repr

/-- An exception escaping `clean_one_file`: the missing-column
`ValueError` of line 44, or the uncaught OverflowError a SAP value can
cause (lines 36 and 53). -/
inductive CleanError where
  | schema (e : SchemaError) : CleanError
  | overflow : CleanError
deriving DecidableEq, Repr

/-- The required column list (line 41). -/
def required : List String :=
  ["SAP", "ROMP", "Catalog", "Shipped Qty", "Ship Date", "Carrier"]

/-- Per-row field coercion (lines 49-56): normalize ROMP and SAP, parse the
ship date, pass the other fields through untouched.  The `astype("Int64")`
cast of line 53 is the identity on the in-range values this fragment
covers; the values on which it (or `int(...)`) raises are modelled by
`sapRaises` and `clean_one_file_checked`. -/
def normalizeRow (parseDate : RawVal → Option Nat) (r : RawRow) : NRow :=
  { sap := normalize_sap_to_int r.sap
    romp := normalize_romp r.romp
    catalog := r.catalog
    shipped_qty := r.shipped_qty
    ship_date := parseDate r.ship_date
    carrier := r.carrier }

/-- `drop_duplicates` keeps the first occurrence of each value; `seen` holds
the values already emitted. -/
def dedupFrom {α : Type} [DecidableEq α] : List α → List α → List α
  | _, [] => []
  | seen, x :: xs =>
    if x ∈ seen then dedupFrom seen xs else x :: dedupFrom (x :: seen) xs

/-- Model of pandas `DataFrame.drop_duplicates()` (default `keep="first"`):
remove every row equal to an earlier row, preserving order. -/
def dedup {α : Type} [DecidableEq α] (l : List α) : List α := dedupFrom [] l

/-- Embeds `clean_one_file` (lines 38-64) applied to an already-read raw
table: check required columns, drop rows with blank Shipped Qty or Ship
Date, coerce fields, drop rows whose ROMP / SAP / Ship Date normalized to
missing, drop exact duplicates, and select the six required columns. -/
def clean_one_file (parseDate : RawVal → Option Nat) (sourceName : String)
    (t : RawTable) : Except SchemaError Table :=
  let missing := required.filter (fun c => !(t.cols.contains c))
  if missing.isEmpty then
    let kept := t.rows.filter
      (fun r => !(is_blank r.shipped_qty) && !(is_blank r.ship_date))
    let coerced := kept.map (normalizeRow parseDate)
    let complete := coerced.filter
      (fun r => r.romp.isSome && r.sap.isSome && r.ship_date.isSome)
    Except.ok { cols := required, rows := dedup complete }
  else
    Except.error { source := sourceName, missing := missing }

/-- Faithful refinement of `clean_one_file` keeping the error paths the
source can take with all columns present: after the blank filter (line
47), the `apply` / `astype("Int64")` over the SAP column (lines 53 and 36)
raises an uncaught OverflowError when any remaining row's SAP parses to
infinity or exceeds Int64 — cleaning then fails with a non-schema error
instead of dropping the row.  `clean_one_file` is the fragment in which no
row raises. -/
def clean_one_file_checked (parseDate : RawVal → Option Nat)
    (sourceName : String) (t : RawTable) : Except CleanError Table :=
  let missing := required.filter (fun c => !(t.cols.contains c))
  if missing.isEmpty then
    let kept := t.rows.filter
      (fun r => !(is_blank r.shipped_qty) && !(is_blank r.ship_date))
    if kept.any (fun r => sapRaises r.sap) then
      Except.error CleanError.overflow
    else
      let coerced := kept.map (normalizeRow parseDate)
      let complete := coerced.filter
        (fun r => r.romp.isSome && r.sap.isSome && r.ship_date.isSome)
      Except.ok { cols := required, rows := dedup complete }
  else
    Except.error (CleanError.schema { source := sourceName, missing := missing })

/-- Evaluate `f` on each element left to right, aborting on the first
raised error: the semantics of the list comprehension
`[clean_one_file(p) for p in files]` under exceptions. -/
def mapExcept {α β ε : Type} (f : α → Except ε β) : List α → Except ε (List β)
  | [] => Except.ok []
  | x :: xs =>
    match f x with
    | Except.error e => Except.error e
    | Except.ok b =>
      match mapExcept f xs with
      | Except.error e => Except.error e
      | Except.ok bs => Except.ok (b :: bs)

/-- Lexicographic (code-point) comparison of character lists: the order
Python's `sorted` uses on file names. -/
def charListLe : List Char → List Char → Bool
  | [], _ => true
  | _ :: _, [] => false
  | a :: as, b :: bs =>
    if a < b then true else if b < a then false else charListLe as bs

/-- Sources ordered by file name, lexicographically. -/
def sourceLe (a b : String × RawTable) : Prop :=
  charListLe a.1.data b.1.data = true

instance : DecidableRel sourceLe := fun a b =>
  inferInstanceAs (Decidable (charListLe a.1.data b.1.data = true))

/-- Sort sources by name, lexicographically: models
`sorted(data_dir.glob("*.xlsx"))` over a directory modelled as a list of
(file name, raw table) pairs. -/
def sortSources (srcs : List (String × RawTable)) : List (String × RawTable) :=
  List.insertionSort sourceLe srcs

/-- Embeds `build_database` (lines 66-78): sort the sources by name; on an
empty source set return an empty table that still has the six canonical
columns; otherwise clean every file (propagating any schema error),
concatenate, and drop exact duplicates across all files. -/
def build_database (parseDate : RawVal → Option Nat)
    (srcs : List (String × RawTable)) : Except SchemaError Table :=
  let files := sortSources srcs
  if files.isEmpty then
    Except.ok { cols := required, rows := [] }
  else
    match mapExcept (fun p => clean_one_file parseDate p.1 p.2) files with
    | Except.error e => Except.error e
    | Except.ok frames =>
      Except.ok { cols := required, rows := dedup (List.flatten (frames.map Table.rows)) }

/-- A concrete date parser used to instantiate the `parseDate` parameter in
closed witnesses: missing or blank cells give no date, anything else a
number derived from the string. -/
def sampleParseDate (v : RawVal) : Option Nat :=
  match v with
  | none => none
  | some s => if pyStrip s == "" then none else some (pyStrip s).length

/-! ### Concrete example data (spec §8 end-to-end scenario and variants) -/

/-- File A's single row from the spec's end-to-end scenario. -/
def rowA : RawRow :=
  { sap := some "10", romp := some "ROMP01", catalog := some "X",
    shipped_qty := some "5", ship_date := some "2024-01-10",
    carrier := some "FedEx" }

/-- A raw table holding just `rowA`, with the six canonical columns. -/
def tableA : RawTable := { cols := required, rows := [rowA] }

/-- The normalized image of `rowA` under `sampleParseDate`. -/
def nrowA : NRow :=
  { sap := some 10, romp := some "01", catalog := some "X",
    shipped_qty := some "5", ship_date := some 10, carrier := some "FedEx" }

/-- The rows `clean_one_file` produces when the schema check passes: blank
filter, per-row coercion, key-field filter, then within-file dedup. -/
def cleanRows (parseDate : RawVal → Option Nat) (t : RawTable) : List NRow :=
  dedup (((t.rows.filter
    (fun r => !(is_blank r.shipped_qty) && !(is_blank r.ship_date))).map
      (normalizeRow parseDate)).filter
    (fun r => r.romp.isSome && r.sap.isSome && r.ship_date.isSome))

/-- File B of the spec's end-to-end scenario: its first row is `rowA` in a
different surface encoding, its second row has a blank SAP. -/
def tableB : RawTable :=
  { cols := required,
    rows := [{ sap := some "10.0", romp := some "1", catalog := some "X",
               shipped_qty := some "5", ship_date := some "01/10/2024",
               carrier := some "FedEx" },
             { sap := some "", romp := some "02", catalog := some "Y",
               shipped_qty := some "3", ship_date := some "2024-02-01",
               carrier := some "UPS" }] }

/-- A two-file source set in which the same record appears in both files. -/
def srcsAB : List (String × RawTable) := [("a.xlsx", tableA), ("b.xlsx", tableB)]

/-- A row whose ROMP value contains a three-digit run. -/
def rowLongRomp : RawRow :=
  { sap := some "10", romp := some "ROMP123", catalog := some "X",
    shipped_qty := some "5", ship_date := some "2024-01-10",
    carrier := some "FedEx" }

/-- A source table holding just `rowLongRomp`. -/
def tableLongRomp : RawTable := { cols := required, rows := [rowLongRomp] }

/-- The normalized image of `rowLongRomp` under `sampleParseDate`: its romp
has three digits. -/
def nrowLongRomp : NRow :=
  { sap := some 10, romp := some "123", catalog := some "X",
    shipped_qty := some "5", ship_date := some 10, carrier := some "FedEx" }

/-- A row whose Carrier and Catalog carry surrounding whitespace. -/
def rowPadded : RawRow :=
  { sap := some "10", romp := some "01", catalog := some " Cat ",
    shipped_qty := some "5", ship_date := some "2024-01-10",
    carrier := some " FedEx " }

/-- A source table holding just `rowPadded`. -/
def tablePadded : RawTable := { cols := required, rows := [rowPadded] }

/-- The normalized image of `rowPadded` under `sampleParseDate`: Carrier and
Catalog keep their surrounding whitespace. -/
def nrowPadded : NRow :=
  { sap := some 10, romp := some "01", catalog := some " Cat ",
    shipped_qty := some "5", ship_date := some 10, carrier := some " FedEx " }

/-- A source table that lacks the `Carrier` column. -/
def tableNoCarrier : RawTable :=
  { cols := ["SAP", "ROMP", "Catalog", "Shipped Qty", "Ship Date"], rows := [] }

/-- A row whose SAP value parses to float infinity: `int(...)` raises. -/
def rowOverflow : RawRow :=
  { sap := some "1e400", romp := some "01", catalog := some "X",
    shipped_qty := some "5", ship_date := some "2024-01-10",
    carrier := some "FedEx" }

/-- A source table with all six canonical columns whose single row carries
the overflowing SAP. -/
def tableOverflow : RawTable := { cols := required, rows := [rowOverflow] }

/-- A two-file source set given in one enumeration order. -/
def srcsBA : List (String × RawTable) := [("b.xlsx", tableB), ("a.xlsx", tableA)]

/-- The table `build_database` produces from `srcsAB` (and from `srcsBA`). -/
def tblAB : Table := { cols := required, rows := [nrowA] }

/-- The table `clean_one_file` produces from `tablePadded`. -/
def tblPadded : Table := { cols := required, rows := [nrowPadded] }

/-- The table `clean_one_file` produces from `tableLongRomp`. -/
def tblLongRomp : Table := { cols := required, rows := [nrowLongRomp] }

/-- A source set containing one well-formed file and one file that lacks
the `Carrier` column. -/
def srcsWithBad : List (String × RawTable) :=
  [("e.xlsx", tableNoCarrier), ("a.xlsx", tableA)]

/-! ### Properties of `dedup` -/

theorem mem_dedupFrom {α : Type} [DecidableEq α] (l : List α) :
    ∀ (seen : List α) (x : α), x ∈ dedupFrom seen l ↔ x ∈ l ∧ x ∉ seen := by
  induction l with
  | nil => intro seen x; simp [dedupFrom]
  | cons a l ih =>
    intro seen x
    by_cases ha : a ∈ seen
    · simp only [dedupFrom, if_pos ha, ih]
      constructor
      · rintro ⟨hx, hs⟩; exact ⟨List.mem_cons_of_mem _ hx, hs⟩
      · rintro ⟨hx, hs⟩
        rcases List.mem_cons.mp hx with rfl | hx
        · exact absurd ha hs
        · exact ⟨hx, hs⟩
    · simp only [dedupFrom, if_neg ha, List.mem_cons, ih]
      by_cases hxa : x = a
      · subst hxa; simp [ha]
      · simp only [hxa, false_or]

theorem dedupFrom_sublist {α : Type} [DecidableEq α] (l : List α) :
    ∀ seen : List α, (dedupFrom seen l).Sublist l := by
  induction l with
  | nil => intro seen; simp [dedupFrom]
  | cons a l ih =>
    intro seen
    by_cases ha : a ∈ seen
    · simpa [dedupFrom, if_pos ha] using (ih seen).cons a
    · simpa [dedupFrom, if_neg ha] using (ih (a :: seen)).cons₂ a

theorem nodup_dedupFrom {α : Type} [DecidableEq α] (l : List α) :
    ∀ seen : List α, (dedupFrom seen l).Nodup := by
  induction l with
  | nil => intro seen; simp [dedupFrom]
  | cons a l ih =>
    intro seen
    by_cases ha : a ∈ seen
    · simpa [dedupFrom, if_pos ha] using ih seen
    · simp only [dedupFrom, if_neg ha, List.nodup_cons]
      refine ⟨fun hmem => ?_, ih (a :: seen)⟩
      exact ((mem_dedupFrom l (a :: seen) a).mp hmem).2 (List.mem_cons_self a seen)

theorem mem_dedup {α : Type} [DecidableEq α] (l : List α) (x : α) :
    x ∈ dedup l ↔ x ∈ l := by
  simp [dedup, mem_dedupFrom]

theorem dedup_sublist {α : Type} [DecidableEq α] (l : List α) :
    (dedup l).Sublist l := dedupFrom_sublist l []

theorem nodup_dedup {α : Type} [DecidableEq α] (l : List α) :
    (dedup l).Nodup := nodup_dedupFrom l []

theorem dedupFrom_congr {α : Type} [DecidableEq α] (l : List α) :
    ∀ seen seen' : List α, (∀ y, y ∈ seen ↔ y ∈ seen') →
      dedupFrom seen l = dedupFrom seen' l := by
  induction l with
  | nil => intro seen seen' _; rfl
  | cons a l ih =>
    intro seen seen' hss
    by_cases ha : a ∈ seen
    · rw [dedupFrom, dedupFrom, if_pos ha, if_pos ((hss a).mp ha), ih seen seen' hss]
    · rw [dedupFrom, dedupFrom, if_neg ha, if_neg (fun h => ha ((hss a).mpr h))]
      refine congrArg (List.cons a) (ih _ _ fun y => ?_)
      simp only [List.mem_cons]
      exact or_congr Iff.rfl (hss y)

theorem dedupFrom_seen_cons {α : Type} [DecidableEq α] (l : List α) :
    ∀ (seen : List α) (x : α),
      dedupFrom (x :: seen) l = dedupFrom seen (l.filter (fun y => y ≠ x)) := by
  induction l with
  | nil => intro seen x; rfl
  | cons a l ih =>
    intro seen x
    by_cases hax : a = x
    · subst hax
      rw [dedupFrom, if_pos (List.mem_cons_self a seen)]
      have : (List.filter (fun y => decide (y ≠ a)) (a :: l)) =
          List.filter (fun y => decide (y ≠ a)) l := by
        simp [List.filter_cons]
      rw [this, ih seen a]
    · have hfil : (List.filter (fun y => decide (y ≠ x)) (a :: l)) =
          a :: List.filter (fun y => decide (y ≠ x)) l := by
        simp [List.filter_cons, hax]
      by_cases ha : a ∈ seen
      · rw [dedupFrom, if_pos (List.mem_cons_of_mem _ ha), hfil, dedupFrom, if_pos ha,
          ih seen x]
      · have hax' : a ∉ x :: seen := by
          intro h
          rcases List.mem_cons.mp h with h' | h'
          · exact hax h'
          · exact ha h'
        rw [dedupFrom, if_neg hax', hfil, dedupFrom, if_neg ha]
        refine congrArg (List.cons a) ?_
        rw [dedupFrom_congr l (a :: x :: seen) (x :: a :: seen)
          (fun y => by simp only [List.mem_cons]; tauto), ih (a :: seen) x]

theorem dedup_cons_eq {α : Type} [DecidableEq α] (x : α) (xs : List α) :
    dedup (x :: xs) = x :: dedup (xs.filter (fun y => y ≠ x)) := by
  show dedupFrom [] (x :: xs) = _
  rw [dedupFrom, if_neg (List.not_mem_nil x)]
  exact congrArg (List.cons x) (dedupFrom_seen_cons xs [] x)

/-! ### Properties of `clean_one_file` -/

theorem isEmpty_false_of_mem {α : Type} {l : List α} {c : α} (h : c ∈ l) :
    l.isEmpty = false := by
  rcases l with _ | _
  · cases h
  · rfl

theorem clean_ok_of_cols (p : RawVal → Option Nat) (name : String)
    (t : RawTable) (h : ∀ c ∈ required, c ∈ t.cols) :
    clean_one_file p name t =
      Except.ok { cols := required, rows := cleanRows p t } := by
  have hm : required.filter (fun c => !(t.cols.contains c)) = [] := by
    rw [List.filter_eq_nil_iff]
    intro c hc
    simp [h c hc]
  simp only [clean_one_file, hm, List.isEmpty_nil, if_true, cleanRows]

theorem clean_error_of_not_mem_cols (p : RawVal → Option Nat) (name : String)
    (t : RawTable) (c : String) (hc : c ∈ required) (hmiss : c ∉ t.cols) :
    clean_one_file p name t =
      Except.error { source := name,
                     missing := required.filter (fun d => !(t.cols.contains d)) } ∧
    c ∈ required.filter (fun d => !(t.cols.contains d)) := by
  have hcm : c ∈ required.filter (fun d => !(t.cols.contains d)) := by
    rw [List.mem_filter]
    exact ⟨hc, by simpa using hmiss⟩
  refine ⟨?_, hcm⟩
  simp only [clean_one_file, isEmpty_false_of_mem hcm]
  rfl

theorem clean_ok_rows (p : RawVal → Option Nat) (name : String)
    (t : RawTable) (tbl : Table)
    (h : clean_one_file p name t = Except.ok tbl) :
    tbl = { cols := required, rows := cleanRows p t } := by
  by_cases hm : (required.filter (fun c => !(t.cols.contains c))).isEmpty
  · simp only [clean_one_file, hm, if_true] at h
    cases h
    rfl
  · simp only [clean_one_file, hm, if_false, Bool.false_eq_true] at h
    cases h

theorem mem_cleanRows (p : RawVal → Option Nat) (t : RawTable) (nr : NRow)
    (h : nr ∈ cleanRows p t) :
    ∃ r ∈ t.rows, is_blank r.shipped_qty = false ∧ is_blank r.ship_date = false ∧
      nr = normalizeRow p r ∧
      nr.romp.isSome ∧ nr.sap.isSome ∧ nr.ship_date.isSome := by
  have h1 := (mem_dedup _ nr).mp h
  rw [List.mem_filter] at h1
  obtain ⟨h2, hkey⟩ := h1
  obtain ⟨r, hr, hnr⟩ := List.mem_map.mp h2
  rw [List.mem_filter] at hr
  obtain ⟨hrow, hblank⟩ := hr
  rw [Bool.and_eq_true, Bool.not_eq_true', Bool.not_eq_true'] at hblank
  simp only [Bool.and_eq_true] at hkey
  exact ⟨r, hrow, hblank.1, hblank.2, hnr.symm, hkey.1.1, hkey.1.2, hkey.2⟩

/-! ### Properties of `mapExcept` and `build_database` -/

theorem mapExcept_ok_mem {α β ε : Type} (f : α → Except ε β) :
    ∀ (l : List α) (bs : List β), mapExcept f l = Except.ok bs →
      ∀ b ∈ bs, ∃ a ∈ l, f a = Except.ok b := by
  intro l
  induction l with
  | nil =>
    intro bs h b hb
    simp only [mapExcept] at h
    cases h
    cases hb
  | cons x l ih =>
    intro bs h b hb
    cases hfx : f x with
    | error e => simp [mapExcept, hfx] at h
    | ok b0 =>
      cases hml : mapExcept f l with
      | error e => simp [mapExcept, hfx, hml] at h
      | ok bs0 =>
        simp only [mapExcept, hfx, hml] at h
        cases h
        rcases List.mem_cons.mp hb with rfl | hb'
        · exact ⟨x, List.mem_cons_self _ _, hfx⟩
        · obtain ⟨a, ha, hfa⟩ := ih bs0 hml b hb'
          exact ⟨a, List.mem_cons_of_mem _ ha, hfa⟩

theorem mapExcept_error_of_mem {α β ε : Type} (f : α → Except ε β) :
    ∀ (l : List α) (a : α) (e : ε), a ∈ l → f a = Except.error e →
      ∃ e', mapExcept f l = Except.error e' := by
  intro l
  induction l with
  | nil => intro a e ha; cases ha
  | cons x l ih =>
    intro a e ha hfa
    cases hfx : f x with
    | error e0 => exact ⟨e0, by simp [mapExcept, hfx]⟩
    | ok b =>
      rcases List.mem_cons.mp ha with rfl | ha'
      · rw [hfa] at hfx; cases hfx
      · obtain ⟨e', hml⟩ := ih a e ha' hfa
        exact ⟨e', by simp [mapExcept, hfx, hml]⟩

theorem sortSources_perm (srcs : List (String × RawTable)) :
    (sortSources srcs).Perm srcs :=
  List.perm_insertionSort _ srcs

theorem build_ok_cases (p : RawVal → Option Nat)
    (srcs : List (String × RawTable)) (tbl : Table)
    (h : build_database p srcs = Except.ok tbl) :
    (srcs = [] ∧ tbl = { cols := required, rows := [] }) ∨
    ∃ frames,
      mapExcept (fun s => clean_one_file p s.1 s.2) (sortSources srcs) =
        Except.ok frames ∧
      tbl = { cols := required,
              rows := dedup (List.flatten (frames.map Table.rows)) } := by
  by_cases hempty : (sortSources srcs).isEmpty
  · left
    have hnil : sortSources srcs = [] := by
      rcases hs : sortSources srcs with _ | _
      · rfl
      · rw [hs] at hempty; cases hempty
    have hsrcs : srcs = [] :=
      List.eq_nil_of_length_eq_zero
        (by rw [← (sortSources_perm srcs).length_eq, hnil]; rfl)
    refine ⟨hsrcs, ?_⟩
    simp only [build_database, hempty, if_true] at h
    cases h
    rfl
  · right
    simp only [build_database, hempty, Bool.false_eq_true, if_false] at h
    cases hm : mapExcept (fun s => clean_one_file p s.1 s.2) (sortSources srcs) with
    | error e => rw [hm] at h; cases h
    | ok frames =>
      rw [hm] at h
      cases h
      exact ⟨frames, rfl, rfl⟩

theorem build_rows_mem (p : RawVal → Option Nat)
    (srcs : List (String × RawTable)) (tbl : Table) (nr : NRow)
    (h : build_database p srcs = Except.ok tbl) (hnr : nr ∈ tbl.rows) :
    ∃ s ∈ srcs, nr ∈ cleanRows p s.2 := by
  rcases build_ok_cases p srcs tbl h with ⟨_, rfl⟩ | ⟨frames, hm, rfl⟩
  · cases hnr
  · have h1 := (mem_dedup _ nr).mp hnr
    obtain ⟨rs, hrs, hmem⟩ := List.mem_flatten.mp h1
    obtain ⟨frame, hframe, hrows⟩ := List.mem_map.mp hrs
    obtain ⟨s, hs, hclean⟩ := mapExcept_ok_mem _ _ frames hm frame hframe
    refine ⟨s, (sortSources_perm srcs).mem_iff.mp hs, ?_⟩
    have := clean_ok_rows p s.1 s.2 frame hclean
    rw [this] at hrows
    rw [← hrows] at hmem
    exact hmem

theorem build_rows_nodup (p : RawVal → Option Nat)
    (srcs : List (String × RawTable)) (tbl : Table)
    (h : build_database p srcs = Except.ok tbl) : tbl.rows.Nodup := by
  rcases build_ok_cases p srcs tbl h with ⟨_, rfl⟩ | ⟨frames, _, rfl⟩
  · exact List.nodup_nil
  · exact nodup_dedup _

/-! ### Determinism of the sorted build order -/

theorem charListLe_total : ∀ x y : List Char,
    charListLe x y = true ∨ charListLe y x = true := by
  intro x
  induction x with
  | nil => intro y; left; rfl
  | cons a as ih =>
    intro y
    cases y with
    | nil => right; rfl
    | cons b bs =>
      by_cases hab : a < b
      · left; rw [charListLe, if_pos hab]
      · by_cases hba : b < a
        · right; rw [charListLe, if_pos hba]
        · rw [charListLe, if_neg hab, if_neg hba,
            charListLe, if_neg hba, if_neg hab]
          exact ih bs

theorem charListLe_trans : ∀ x y z : List Char,
    charListLe x y = true → charListLe y z = true → charListLe x z = true := by
  intro x
  induction x with
  | nil => intro y z _ _; rfl
  | cons a as ih =>
    intro y z hxy hyz
    cases y with
    | nil => rw [charListLe] at hxy; cases hxy
    | cons b bs =>
      cases z with
      | nil => rw [charListLe] at hyz; cases hyz
      | cons c cs =>
        by_cases hbc : b < c
        · by_cases hac : a < c
          · rw [charListLe, if_pos hac]
          · exfalso
            rw [charListLe] at hxy
            by_cases hab : a < b
            · exact hac (lt_trans hab hbc)
            · rw [if_neg hab] at hxy
              by_cases hba : b < a
              · rw [if_pos hba] at hxy; cases hxy
              · exact hac (lt_of_le_of_lt (not_lt.mp hba) hbc)
        · by_cases hcb : c < b
          · exfalso
            rw [charListLe, if_neg hbc, if_pos hcb] at hyz
            cases hyz
          · have hbceq : b = c := le_antisymm (not_lt.mp hcb) (not_lt.mp hbc)
            subst hbceq
            rw [charListLe, if_neg hbc, if_neg hcb] at hyz
            rw [charListLe] at hxy ⊢
            by_cases hab : a < b
            · rw [if_pos hab]
            · rw [if_neg hab] at hxy ⊢
              by_cases hba : b < a
              · rw [if_pos hba] at hxy; cases hxy
              · rw [if_neg hba] at hxy ⊢
                exact ih bs cs hxy hyz

theorem charListLe_antisymm : ∀ x y : List Char,
    charListLe x y = true → charListLe y x = true → x = y := by
  intro x
  induction x with
  | nil =>
    intro y _ hyx
    cases y with
    | nil => rfl
    | cons b bs => rw [charListLe] at hyx; cases hyx
  | cons a as ih =>
    intro y hxy hyx
    cases y with
    | nil => rw [charListLe] at hxy; cases hxy
    | cons b bs =>
      by_cases hab : a < b
      · exfalso
        rw [charListLe, if_neg (lt_asymm hab), if_pos hab] at hyx
        cases hyx
      · by_cases hba : b < a
        · exfalso
          rw [charListLe, if_neg hab, if_pos hba] at hxy
          cases hxy
        · have habeq : a = b := le_antisymm (not_lt.mp hba) (not_lt.mp hab)
          subst habeq
          rw [charListLe, if_neg hab, if_neg hba] at hxy hyx
          rw [ih bs hxy hyx]

theorem sourceLe_name_eq (a b : String × RawTable)
    (hab : sourceLe a b) (hba : sourceLe b a) : a.1 = b.1 := by
  have hd : a.1.data = b.1.data := charListLe_antisymm _ _ hab hba
  exact congrArg String.mk hd

theorem sorted_le_sortSources (srcs : List (String × RawTable)) :
    List.Sorted sourceLe (sortSources srcs) := by
  haveI : IsTotal (String × RawTable) sourceLe :=
    ⟨fun a b => charListLe_total a.1.data b.1.data⟩
  haveI : IsTrans (String × RawTable) sourceLe :=
    ⟨fun a b c hab hbc => charListLe_trans a.1.data b.1.data c.1.data hab hbc⟩
  exact List.sorted_insertionSort _ srcs

theorem sortSources_eq_of_perm (srcs srcs' : List (String × RawTable))
    (hperm : srcs.Perm srcs') (hnd : (srcs.map Prod.fst).Nodup) :
    sortSources srcs = sortSources srcs' := by
  haveI : IsAntisymm (String × RawTable)
      (fun a b => sourceLe a b ∧ a.1 ≠ b.1) := by
    refine ⟨fun a b hab hba => ?_⟩
    exact absurd (sourceLe_name_eq a b hab.1 hba.1) hab.2
  have h1 : (sortSources srcs).Perm (sortSources srcs') :=
    (sortSources_perm srcs).trans (hperm.trans (sortSources_perm srcs').symm)
  have hnd1 : ((sortSources srcs).map Prod.fst).Nodup :=
    (((sortSources_perm srcs).map Prod.fst).nodup_iff).mpr hnd
  have hnd2 : ((sortSources srcs').map Prod.fst).Nodup :=
    (((sortSources_perm srcs').map Prod.fst).nodup_iff).mpr
      (((hperm.map Prod.fst).nodup_iff).mp hnd)
  have hs1 : List.Sorted (fun a b : String × RawTable => sourceLe a b ∧ a.1 ≠ b.1)
      (sortSources srcs) :=
    (sorted_le_sortSources srcs).and (List.pairwise_map.mp hnd1)
  have hs2 : List.Sorted (fun a b : String × RawTable => sourceLe a b ∧ a.1 ≠ b.1)
      (sortSources srcs') :=
    (sorted_le_sortSources srcs').and (List.pairwise_map.mp hnd2)
  exact List.eq_of_perm_of_sorted h1 hs1 hs2

/-! ### Shape of normalized ROMP values -/

theorem firstDigitRun_spec (cs : List Char) :
    ∀ run : List Char, firstDigitRun cs = some run →
      run ≠ [] ∧ run.all Char.isDigit = true := by
  induction cs with
  | nil => intro run h; cases h
  | cons c cs ih =>
    intro run h
    by_cases hc : c.isDigit
    · rw [firstDigitRun, if_pos hc] at h
      cases h
      exact ⟨List.cons_ne_nil _ _, by simp [hc]⟩
    · rw [firstDigitRun, if_neg hc] at h
      exact ih run h

theorem zfill2_length (ds : List Char) : (zfill2 ds).length = max 2 ds.length := by
  rw [zfill2]
  by_cases h : 2 ≤ ds.length
  · rw [if_pos h, Nat.max_eq_right h]
  · rw [if_neg h, List.length_append, List.length_replicate]
    omega

theorem zfill2_all_digit (ds : List Char) (h : ds.all Char.isDigit = true) :
    (zfill2 ds).all Char.isDigit = true := by
  rw [zfill2]
  by_cases h2 : 2 ≤ ds.length
  · rw [if_pos h2]; exact h
  · rw [if_neg h2, List.all_append, h]
    simp only [Bool.and_true]
    rw [List.all_eq_true]
    intro c hc
    rw [List.eq_of_mem_replicate hc]
    decide

/-! ## The claims -/

/-- Claim C1: if a source's raw table lacks a required column, cleaning it
fails with a `SchemaError` carrying the source name and exactly the missing
column names, and any build over a source set containing that source fails
with a `SchemaError` instead of producing a table. -/
theorem C1_missing_column_fails (p : RawVal → Option Nat) (name : String)
    (t : RawTable) (c : String) (hc : c ∈ required) (hmiss : c ∉ t.cols) :
    (∃ e : SchemaError, clean_one_file p name t = Except.error e ∧
      e.source = name ∧ c ∈ e.missing ∧
      e.missing = required.filter (fun d => !(t.cols.contains d))) ∧
    ∀ srcs : List (String × RawTable), (name, t) ∈ srcs →
      ∃ e : SchemaError, build_database p srcs = Except.error e := by
  obtain ⟨herr, hcm⟩ := clean_error_of_not_mem_cols p name t c hc hmiss
  refine ⟨⟨_, herr, rfl, hcm, rfl⟩, ?_⟩
  intro srcs hmem
  have hmem' : (name, t) ∈ sortSources srcs :=
    (sortSources_perm srcs).mem_iff.mpr hmem
  obtain ⟨e', hmap⟩ := mapExcept_error_of_mem
    (fun s => clean_one_file p s.1 s.2) (sortSources srcs) (name, t) _ hmem' herr
  have hne : (sortSources srcs).isEmpty = false := isEmpty_false_of_mem hmem'
  exact ⟨e', by simp [build_database, hne, hmap]⟩

/-- Claim C1 witness: a concrete build over a source set containing a file
without the `Carrier` column fails. -/
theorem C1_missing_column_fails_witness :
    ∃ e : SchemaError,
      build_database sampleParseDate srcsWithBad = Except.error e :=
  (C1_missing_column_fails sampleParseDate "e.xlsx" tableNoCarrier "Carrier"
    (by decide) (by decide)).2 srcsWithBad (by decide)

/-- Claim C2: a successfully built table contains no two rows that agree on
all six fields, and every row of it occurs in it exactly once. -/
theorem C2_no_duplicate_rows (p : RawVal → Option Nat)
    (srcs : List (String × RawTable)) (tbl : Table)
    (h : build_database p srcs = Except.ok tbl) :
    tbl.rows.Nodup ∧ ∀ r ∈ tbl.rows, tbl.rows.count r = 1 := by
  have hnd := build_rows_nodup p srcs tbl h
  exact ⟨hnd, fun r hr => List.count_eq_one_of_mem hnd hr⟩

/-- Claim C2 witness: the spec's end-to-end scenario, in which the same
record occurs in both source files and survives exactly once. -/
theorem C2_no_duplicate_rows_witness :
    tblAB.rows.Nodup ∧ tblAB.rows.count nrowA = 1 :=
  ⟨(C2_no_duplicate_rows sampleParseDate srcsAB tblAB (by decide)).1,
   (C2_no_duplicate_rows sampleParseDate srcsAB tblAB (by decide)).2 nrowA
     (by decide)⟩

theorem clean_checked_agrees (p : RawVal → Option Nat) (name : String)
    (t : RawTable)
    (h : (t.rows.filter
        (fun r => !(is_blank r.shipped_qty) && !(is_blank r.ship_date))).any
          (fun r => sapRaises r.sap) = false) :
    clean_one_file_checked p name t =
      Except.mapError CleanError.schema (clean_one_file p name t) := by
  by_cases hm : (required.filter (fun c => !(t.cols.contains c))).isEmpty
  · simp only [clean_one_file_checked, clean_one_file, hm, if_true, h,
      Bool.false_eq_true, if_false]
    rfl
  · simp only [clean_one_file_checked, clean_one_file, hm, Bool.false_eq_true,
      if_false]
    rfl

/-- Claim C3 (code bug): the row-drop policy is not exception-free.  With
all six required columns present and a row whose SAP is `"1e400"` (Shipped
Qty and Ship Date non-blank), `pd.to_numeric` parses the SAP to infinity
and the `int(...)` call at line 36 raises an uncaught OverflowError, so
cleaning fails with a non-schema error instead of silently discarding the
row — against the claim and the function's own docstring, which promises a
nullable integer or a missing value, never an exception.  The same holds
for a SAP of `"inf"`. -/
theorem C3_overflow_row_not_dropped :
    required.all (fun c => tableOverflow.cols.contains c) = true ∧
    is_blank rowOverflow.shipped_qty = false ∧
    is_blank rowOverflow.ship_date = false ∧
    pdToNumericClass "1e400" = PyNum.inf false ∧
    pdToNumericClass "inf" = PyNum.inf false ∧
    sapRaises rowOverflow.sap = true ∧
    clean_one_file_checked sampleParseDate "f.xlsx" tableOverflow =
      Except.error CleanError.overflow := by
  refine ⟨by decide, by decide, by decide, by decide, by decide, by decide,
    by decide⟩

/-- Claim C8: building from an empty source set succeeds and returns an
empty table that still carries the six canonical columns. -/
theorem C8_empty_source_set (p : RawVal → Option Nat) :
    build_database p [] =
      Except.ok { cols := ["SAP", "ROMP", "Catalog", "Shipped Qty",
                           "Ship Date", "Carrier"],
                  rows := [] } := rfl

/-- Claim C4 counterexample: a ROMP whose first digit run has three digits
is zero-padded to width 2 but not truncated, so the normalized romp has
length 3, not exactly two digits, and such a record reaches the final
table. -/
theorem C4_counterexample_long_run :
    normalize_romp (some "ROMP123") = some "123" ∧
    ("123" : String).length = 3 ∧
    build_database sampleParseDate [("c.xlsx", tableLongRomp)] =
      Except.ok tblLongRomp ∧
    nrowLongRomp.romp = some "123" := by
  refine ⟨by decide, by decide, by decide, rfl⟩

/-- Claim C4 (amended): a surviving romp is the first digit run of the
value's stripped string form zero-padded to width 2 — all digits, of length
`max 2 (run length)`, hence exactly 2 whenever the run has at most two
digits — and every record of a built table has such a romp, of length at
least 2. -/
theorem C4_romp_zero_padded :
    (∀ (val : RawVal) (r : String), normalize_romp val = some r →
      r.data.all Char.isDigit = true ∧ 2 ≤ r.length ∧
      ∃ v run, val = some v ∧ firstDigitRun (pyStrip v).data = some run ∧
        r = String.mk (zfill2 run) ∧ r.length = max 2 run.length ∧
        (run.length ≤ 2 → r.length = 2)) ∧
    ∀ (p : RawVal → Option Nat) (srcs : List (String × RawTable)) (tbl : Table),
      build_database p srcs = Except.ok tbl →
      ∀ nr ∈ tbl.rows, ∃ s : String, nr.romp = some s ∧
        s.data.all Char.isDigit = true ∧ 2 ≤ s.length := by
  have h1 : ∀ (val : RawVal) (r : String), normalize_romp val = some r →
      r.data.all Char.isDigit = true ∧ 2 ≤ r.length ∧
      ∃ v run, val = some v ∧ firstDigitRun (pyStrip v).data = some run ∧
        r = String.mk (zfill2 run) ∧ r.length = max 2 run.length ∧
        (run.length ≤ 2 → r.length = 2) := by
    intro val r h
    cases val with
    | none => cases h
    | some v =>
      rw [normalize_romp] at h
      cases hrun : firstDigitRun (pyStrip v).data with
      | none => rw [hrun] at h; cases h
      | some run =>
        rw [hrun] at h
        cases h
        obtain ⟨_, hdig⟩ := firstDigitRun_spec _ run hrun
        have hlen : (String.mk (zfill2 run)).length = (zfill2 run).length := rfl
        refine ⟨zfill2_all_digit run hdig, ?_,
          v, run, rfl, hrun, rfl, ?_, ?_⟩
        · rw [hlen, zfill2_length]; omega
        · rw [hlen, zfill2_length]
        · intro hr2; rw [hlen, zfill2_length]; omega
  refine ⟨h1, ?_⟩
  intro p srcs tbl h nr hnr
  obtain ⟨s, _, hmem⟩ := build_rows_mem p srcs tbl nr h hnr
  obtain ⟨r, _, _, _, hnr_eq, hromp, _, _⟩ := mem_cleanRows p s.2 nr hmem
  obtain ⟨rs, hrs⟩ := Option.isSome_iff_exists.mp hromp
  have hnorm : normalize_romp r.romp = some rs := by
    rw [hnr_eq] at hrs
    exact hrs
  obtain ⟨hdig, hlen, _⟩ := h1 r.romp rs hnorm
  exact ⟨rs, hrs, hdig, hlen⟩

/-- Claim C4 witness: the amended characterization applied to the raw ROMP
value `"ROMP3"`, which normalizes to `"03"`. -/
theorem C4_romp_zero_padded_witness :
    ("03" : String).data.all Char.isDigit = true ∧ 2 ≤ ("03" : String).length ∧
    ∃ v run, (some "ROMP3" : RawVal) = some v ∧
      firstDigitRun (pyStrip v).data = some run ∧
      ("03" : String) = String.mk (zfill2 run) ∧
      ("03" : String).length = max 2 run.length ∧
      (run.length ≤ 2 → ("03" : String).length = 2) :=
  C4_romp_zero_padded.1 (some "ROMP3") "03" (by decide)

/-- Claim C5: a raw row with blank Shipped Qty or blank Ship Date never
contributes to the normalized output of its table: every output row has a
non-blank Shipped Qty and arises, by pure field coercion, from an input row
whose Shipped Qty and Ship Date are both non-blank. -/
theorem C5_blank_rows_never_survive (p : RawVal → Option Nat) (name : String)
    (t : RawTable) (tbl : Table)
    (h : clean_one_file p name t = Except.ok tbl) :
    ∀ nr ∈ tbl.rows, is_blank nr.shipped_qty = false ∧
      ∃ r ∈ t.rows, is_blank r.shipped_qty = false ∧
        is_blank r.ship_date = false ∧ nr = normalizeRow p r := by
  intro nr hnr
  have htbl := clean_ok_rows p name t tbl h
  subst htbl
  obtain ⟨r, hr, hbq, hbd, hnr_eq, _, _, _⟩ := mem_cleanRows p t nr hnr
  refine ⟨?_, r, hr, hbq, hbd, hnr_eq⟩
  rw [hnr_eq]
  exact hbq

/-- Claim C5 witness: the surviving record of file B is non-blank and comes
from B's first raw row. -/
theorem C5_blank_rows_never_survive_witness :
    is_blank nrowA.shipped_qty = false ∧
    ∃ r ∈ tableB.rows, is_blank r.shipped_qty = false ∧
      is_blank r.ship_date = false ∧ nrowA = normalizeRow sampleParseDate r :=
  C5_blank_rows_never_survive sampleParseDate "b.xlsx" tableB
    { cols := required, rows := [nrowA] } (by decide) nrowA (by decide)

/-- Claim C6: SAP normalization returns none on a missing or blank value,
strips a literal `.0` suffix from an all-digit-dot-zero string, parses
numerically with truncation toward zero, and returns none on parse failure:
`"40.0"` to 40, `"000010"` to 10, `"40"` to 40, `"40.9"` truncated to 40,
`"N/A"` to none. -/
theorem C6_sap_normalization :
    normalize_sap_to_int none = none ∧
    normalize_sap_to_int (some "40.0") = some 40 ∧
    normalize_sap_to_int (some "000010") = some 10 ∧
    normalize_sap_to_int (some "40") = some 40 ∧
    normalize_sap_to_int (some "N/A") = none ∧
    normalize_sap_to_int (some "40.9") = some 40 ∧
    ∀ s : String, is_blank (some s) = true →
      normalize_sap_to_int (some s) = none := by
  refine ⟨rfl, by decide, by decide, by decide, by decide, by decide, ?_⟩
  intro s hs
  have h0 : pyStrip s = "" := by
    simpa [is_blank] using hs
  simp only [normalize_sap_to_int, h0]
  decide

/-- Claim C6 witness: a whitespace-only SAP value is blank and normalizes
to none. -/
theorem C6_sap_normalization_witness :
    normalize_sap_to_int (some "  ") = none :=
  C6_sap_normalization.2.2.2.2.2.2 "  " (by decide)

/-- Claim C7: the build is a deterministic function of the source set —
whatever order the directory enumeration yields the files in, sorting by
name makes the result identical, provided file names are distinct. -/
theorem C7_build_order_independent (p : RawVal → Option Nat)
    (srcs srcs' : List (String × RawTable))
    (hperm : srcs.Perm srcs') (hnd : (srcs.map Prod.fst).Nodup) :
    build_database p srcs = build_database p srcs' := by
  have hsort := sortSources_eq_of_perm srcs srcs' hperm hnd
  simp only [build_database, hsort]

/-- Claim C7 witness: enumerating the two files of the end-to-end scenario
in either order builds the same table. -/
theorem C7_build_order_independent_witness :
    build_database sampleParseDate srcsBA = build_database sampleParseDate srcsAB :=
  C7_build_order_independent sampleParseDate srcsBA srcsAB
    (List.Perm.swap ("a.xlsx", tableA) ("b.xlsx", tableB) [])
    (by decide)

/-- Claim C9 counterexample: a Carrier (and Catalog) value with surrounding
whitespace survives cleaning verbatim — the stored field is not the trimmed
string form the claim demands. -/
theorem C9_counterexample_untrimmed :
    clean_one_file sampleParseDate "d.xlsx" tablePadded = Except.ok tblPadded ∧
    nrowPadded.carrier = some " FedEx " ∧
    nrowPadded.catalog = some " Cat " ∧
    pyStrip " FedEx " = "FedEx" ∧ (" FedEx " : String) ≠ "FedEx" ∧
    pyStrip " Cat " = "Cat" ∧ (" Cat " : String) ≠ "Cat" := by
  refine ⟨by decide, rfl, rfl, by decide, by decide, by decide, by decide⟩

/-- Claim C9 (amended): for every surviving row, Catalog, Carrier and
Shipped Qty are passed through from the raw row verbatim — no trimming, no
validation, no alteration. -/
theorem C9_catalog_carrier_passthrough (p : RawVal → Option Nat)
    (name : String) (t : RawTable) (tbl : Table)
    (h : clean_one_file p name t = Except.ok tbl) :
    ∀ nr ∈ tbl.rows, ∃ r ∈ t.rows,
      nr.catalog = r.catalog ∧ nr.carrier = r.carrier ∧
      nr.shipped_qty = r.shipped_qty := by
  intro nr hnr
  have htbl := clean_ok_rows p name t tbl h
  subst htbl
  obtain ⟨r, hr, _, _, hnr_eq, _, _, _⟩ := mem_cleanRows p t nr hnr
  refine ⟨r, hr, ?_, ?_, ?_⟩ <;> (rw [hnr_eq]; rfl)

/-- Claim C9 witness: the padded row's fields reach the cleaned table
verbatim. -/
theorem C9_catalog_carrier_passthrough_witness :
    ∃ r ∈ tablePadded.rows,
      nrowPadded.catalog = r.catalog ∧ nrowPadded.carrier = r.carrier ∧
      nrowPadded.shipped_qty = r.shipped_qty :=
  C9_catalog_carrier_passthrough sampleParseDate "d.xlsx" tablePadded
    tblPadded (by decide) nrowPadded (by decide)

/-- Claim C10: duplicate removal keeps the first occurrence and preserves
the relative order of the surviving rows — the deduplicated list is a
subsequence of its input with the same membership, the head of a list is
always retained with later copies of it filtered out, and a successful
non-empty build is exactly the first-occurrence dedup of the in-order
(source order, then intra-source order) concatenation of the cleaned
frames. -/
theorem C10_dedup_keeps_first_in_order :
    (∀ l : List NRow, (dedup l).Sublist l) ∧
    (∀ (l : List NRow) (x : NRow), x ∈ dedup l ↔ x ∈ l) ∧
    (∀ (x : NRow) (xs : List NRow),
      dedup (x :: xs) = x :: dedup (xs.filter (fun y => y ≠ x))) ∧
    ∀ (p : RawVal → Option Nat) (srcs : List (String × RawTable))
      (frames : List Table),
      mapExcept (fun s => clean_one_file p s.1 s.2) (sortSources srcs) =
        Except.ok frames →
      sortSources srcs ≠ [] →
      build_database p srcs =
        Except.ok { cols := required,
                    rows := dedup (List.flatten (frames.map Table.rows)) } := by
  refine ⟨fun l => dedup_sublist l, fun l x => mem_dedup l x,
    fun x xs => dedup_cons_eq x xs, ?_⟩
  intro p srcs frames hm hne
  have hB : (sortSources srcs).isEmpty = false := by
    rcases hss : sortSources srcs with _ | _
    · exact absurd hss hne
    · rfl
  simp [build_database, hB, hm]

/-- Claim C10 witness: on the end-to-end scenario the build is literally
the first-occurrence dedup of the concatenation of both cleaned frames. -/
theorem C10_dedup_keeps_first_in_order_witness :
    build_database sampleParseDate srcsAB =
      Except.ok { cols := required,
                  rows := dedup (List.flatten ([tblAB, tblAB].map Table.rows)) } :=
  C10_dedup_keeps_first_in_order.2.2.2 sampleParseDate srcsAB [tblAB, tblAB]
    (by decide) (by decide)
